import Mathlib

/-!
# Verification of the FLASH hierarchy builder (yt/frontends/flash/data_structures.py)

Shallow embedding of the FLASH checkpoint-reader core: the parameter store
(`_find_parameter`, `_parse_parameter_file`, `_set_units` on `FLASHStaticOutput`)
and the three hierarchy-building phases (`_count_grids`, `_parse_hierarchy`,
`_populate_grid_objects` on `FLASHHierarchy`).

Numeric modelling: HDF5 table values (floats and ints alike) are embedded as
rationals `ℚ`; per-grid integer arrays (`/refine level`, `/localnp`, `/gid`)
as `Int` lists.  NumPy arrays become Lean lists; NumPy / Python indexing
(including Python's negative-index wrap-around and `IndexError`) is modelled
explicitly.  Fallible operations return `Except String`; a `.error` models an
uncaught Python exception aborting the operation.

Mutable object state (each `FLASHGrid`'s `Parent` / `Children` attributes) is
modelled as explicit state: `RelState` maps a 0-based grid index to its
current parent (index) and children (indices), and `_populate_grid_objects`'s
loop is a fold over the level-sorted index order threading that state.
-/

/-- One `FLASHGrid` record as produced by `_parse_hierarchy`
(`self.grid(i+1, self, self.grid_levels[i,0])`): a 1-based `id` and the stored
(0-based, already decremented) refinement level.  The mutable `Parent` /
`Children` attributes (initialised to `None` / `[]` in `FLASHGrid.__init__`)
live in `RelState` below. -/
structure FLASHGrid where
  id : Nat
  level : Int
  deriving Repr, DecidableEq

/-- The `Parent` / `Children` attributes of all grids, plus the hierarchy's
`max_level`, keyed by 0-based grid index.  `FLASHGrid.__init__` sets
`self.Parent = None` and `self.Children = []`, giving `initRelState`. -/
structure RelState where
  parent : Nat → Option Nat
  children : Nat → List Nat
  maxLevel : Int

/-- State after every grid's `FLASHGrid.__init__`: no parent, no children. -/
def initRelState : RelState :=
  { parent := fun _ => none, children := fun _ => [], maxLevel := 0 }

/-- Python / NumPy indexing into a length-`n` sequence: `0 ≤ i < n` is the
plain element, `-n ≤ i < 0` wraps to `n + i`, anything else raises
`IndexError` (`none`). -/
def pyIdx (n : Nat) (i : Int) : Option Nat :=
  if 0 ≤ i ∧ i < (n : Int) then some i.toNat
  else if -(n : Int) ≤ i ∧ i < 0 then some (i + n).toNat
  else none

/-- The list comprehension `[self.grids[i - 1] for i in gid[gi, 7:] if i > -1]`
(line 137): keep slot values `> -1`, index `self.grids` (length `n`) at
`i - 1`; an out-of-range index raises `IndexError`. -/
def resolveChildren (n : Nat) : List Int → Except String (List Nat)
  | [] => .ok []
  | v :: vs =>
    if -1 < v then
      match pyIdx n (v - 1) with
      | some j => (resolveChildren n vs).map (fun js => j :: js)
      | none => .error "IndexError"
    else resolveChildren n vs

/-- One iteration of the `for g in self.grids[ii].flat` loop (lines 134‑141)
for the grid with 0-based index `gi`: read row `gid[gi]`, resolve the child
slots `gid[gi, 7:]`, replace `g.Children` with the resolved grids and set
`g1.Parent = g` for each resolved child `g1`.  (`g._prepare_grid()` and
`g._setup_dx()` are external base-class calls not modelled here.) -/
def popStep (gid : List (List Int)) (n : Nat) (s : RelState) (gi : Nat) :
    Except String RelState :=
  match gid.get? gi with
  | none => .error "IndexError"
  | some row =>
    match resolveChildren n (row.drop 7) with
    | .error e => .error e
    | .ok cs =>
      .ok { s with
            children := fun g => if g = gi then cs else s.children g,
            parent := fun g => if g ∈ cs then some gi else s.parent g }

/-- The whole `for` loop of `_populate_grid_objects`, over the grid order
`order` (the code uses `ii = na.argsort(self.grid_levels.flat)`). -/
def populateLoop (gid : List (List Int)) (n : Nat) :
    List Nat → RelState → Except String RelState
  | [], s => .ok s
  | gi :: rest, s =>
    match popStep gid n s gi with
    | .error e => .error e
    | .ok s' => populateLoop gid n rest s'

/-- Insert index `i` into an index list ordered by the level array `levels`. -/
def insertByLevel (levels : List Int) (i : Nat) : List Nat → List Nat
  | [] => [i]
  | j :: rest =>
    if levels.getD i 0 ≤ levels.getD j 0 then i :: j :: rest
    else j :: insertByLevel levels i rest

/-- Insertion sort of grid indices by level. -/
def sortByLevel (levels : List Int) : List Nat → List Nat
  | [] => []
  | i :: rest => insertByLevel levels i (sortByLevel levels rest)

/-- `ii = na.argsort(self.grid_levels.flat)` (line 132): a permutation of the
grid indices `0, …, N-1` ordered by ascending stored level.  (NumPy's argsort
leaves the order of equal levels unspecified; none of the verified properties
depend on the tie order, only on `levelOrder` being such a permutation.) -/
def levelOrder (levels : List Int) : List Nat :=
  sortByLevel levels (List.range levels.length)

/-- `array.max()`: `none` on an empty array (NumPy raises `ValueError`). -/
def listMax : List Int → Option Int
  | [] => none
  | x :: xs => some (xs.foldl max x)

/-- `_populate_grid_objects` (lines 128‑142): run the relationship loop over
the level-sorted order starting from freshly constructed grids, then set
`self.max_level = self.grid_levels.max()`.  `n` is `self.num_grids`,
`levels` the stored (already decremented) `grid_levels`, `gid` the `/gid`
adjacency table. -/
def populate_grid_objects (n : Nat) (levels : List Int)
    (gid : List (List Int)) : Except String RelState :=
  match populateLoop gid n (levelOrder levels) initRelState with
  | .error e => .error e
  | .ok s =>
    match listMax levels with
    | none => .error "ValueError"
    | some m => .ok { s with maxLevel := m }

/-- `true` iff the computation did not raise. -/
def exceptIsOk {ε α : Type} : Except ε α → Bool
  | .ok _ => true
  | .error _ => false

/-- Extract the final state of a successful build (junk on error);
used only to state concrete witnesses. -/
def getOkState : Except String RelState → RelState
  | .ok s => s
  | .error _ => initRelState

section SortLemmas

theorem insertByLevel_perm (levels : List Int) (i : Nat) (l : List Nat) :
    (insertByLevel levels i l).Perm (i :: l) := by
  induction l with
  | nil => simp [insertByLevel]
  | cons j rest ih =>
    simp only [insertByLevel]
    by_cases h : levels.getD i 0 ≤ levels.getD j 0
    · rw [if_pos h]
    · rw [if_neg h]
      exact ((ih.cons j).trans (List.Perm.swap i j rest))

theorem sortByLevel_perm (levels : List Int) (l : List Nat) :
    (sortByLevel levels l).Perm l := by
  induction l with
  | nil => simp [sortByLevel]
  | cons i rest ih =>
    exact (insertByLevel_perm levels i (sortByLevel levels rest)).trans (ih.cons i)

theorem levelOrder_perm (levels : List Int) :
    (levelOrder levels).Perm (List.range levels.length) :=
  sortByLevel_perm levels (List.range levels.length)

theorem levelOrder_nodup (levels : List Int) : (levelOrder levels).Nodup :=
  ((levelOrder_perm levels).nodup_iff).mpr (List.nodup_range _)

theorem mem_levelOrder {levels : List Int} {gi : Nat} :
    gi ∈ levelOrder levels ↔ gi < levels.length := by
  rw [(levelOrder_perm levels).mem_iff, List.mem_range]

end SortLemmas

section ParentChildSymmetry

/-- Invariant carried through the relationship loop: any already-assigned
parent link already has the matching child entry, and the parent grid is not
going to be revisited (so its `Children` list is final). -/
def ParentInv (s : RelState) (rem : List Nat) : Prop :=
  ∀ g p, s.parent g = some p → g ∈ s.children p ∧ p ∉ rem

theorem popStep_parentInv {gid : List (List Int)} {n : Nat} {s s' : RelState}
    {gi : Nat} {rem : List Nat} (hstep : popStep gid n s gi = .ok s')
    (hinv : ParentInv s (gi :: rem)) (hgi : gi ∉ rem) : ParentInv s' rem := by
  unfold popStep at hstep
  split at hstep
  · simp at hstep
  · rename_i row hrow
    split at hstep
    · simp at hstep
    · rename_i cs hres
      injection hstep with hstep
      subst hstep
      intro g p hp
      simp only at hp ⊢
      by_cases hg : g ∈ cs
      · rw [if_pos hg] at hp
        injection hp with hp
        subst hp
        refine ⟨?_, hgi⟩
        rw [if_pos rfl]
        exact hg
      · rw [if_neg hg] at hp
        obtain ⟨hmem, hnrem⟩ := hinv g p hp
        have hpgi : ¬p = gi := fun h => hnrem (h ▸ List.mem_cons_self gi rem)
        refine ⟨?_, fun h => hnrem (List.mem_cons_of_mem gi h)⟩
        rw [if_neg hpgi]
        exact hmem

theorem populateLoop_parentInv {gid : List (List Int)} {n : Nat} :
    ∀ (order : List Nat) (s s' : RelState), order.Nodup →
      populateLoop gid n order s = .ok s' → ParentInv s order → ParentInv s' [] := by
  intro order
  induction order with
  | nil =>
    intro s s' _ hloop hinv
    injection hloop with h
    subst h
    exact hinv
  | cons gi rest ih =>
    intro s s' hnd hloop hinv
    simp only [populateLoop] at hloop
    split at hloop
    · simp at hloop
    · rename_i s2 hstep
      have hgi : gi ∉ rest := (List.nodup_cons.mp hnd).1
      have hnd' : rest.Nodup := (List.nodup_cons.mp hnd).2
      exact ih s2 s' hnd' hloop (popStep_parentInv hstep hinv hgi)

/-- C1 — For every hierarchy that finishes building (`_populate_grid_objects`
completed without error) and every grid `G` in it: if `G.Parent = P` then
`G ∈ P.Children`.  Grids are named by 0-based index. -/
theorem c1_parent_in_children (n : Nat) (levels : List Int)
    (gid : List (List Int)) (s : RelState)
    (hok : populate_grid_objects n levels gid = .ok s) :
    ∀ g p, s.parent g = some p → g ∈ s.children p := by
  unfold populate_grid_objects at hok
  split at hok
  · simp at hok
  · rename_i s0 hloop
    split at hok
    · simp at hok
    · rename_i m hmax
      injection hok with hok
      subst hok
      intro g p hp
      have hinv0 : ParentInv initRelState (levelOrder levels) := by
        intro g' p' hp'
        exact absurd hp' (by simp [initRelState])
      have := populateLoop_parentInv (levelOrder levels) initRelState s0
        (levelOrder_nodup levels) hloop hinv0
      exact (this g p hp).1

end ParentChildSymmetry

section BuildOutcomes

/-- Destructure a successful `_populate_grid_objects` run into its loop state
and `max_level`. -/
theorem populate_ok_elim {n : Nat} {levels : List Int} {gid : List (List Int)}
    {s : RelState} (hok : populate_grid_objects n levels gid = .ok s) :
    ∃ s0, populateLoop gid n (levelOrder levels) initRelState = .ok s0 ∧
      s.parent = s0.parent ∧ s.children = s0.children ∧
      listMax levels = some s.maxLevel := by
  unfold populate_grid_objects at hok
  split at hok
  · simp at hok
  · rename_i s0 hloop
    split at hok
    · simp at hok
    · rename_i m hmax
      injection hok with hok
      subst hok
      exact ⟨s0, hloop, rfl, rfl, hmax⟩

/-- A slot value strictly greater than the grid count indexes `self.grids`
out of range. -/
theorem pyIdx_none_of_big {n : Nat} {v : Int} (hbig : (n : Int) < v) :
    pyIdx n (v - 1) = none := by
  unfold pyIdx
  rw [if_neg (by omega), if_neg (by omega)]

theorem resolveChildren_error_of_big {n : Nat} {v : Int} :
    ∀ slots : List Int, v ∈ slots → (n : Int) < v →
      ∃ e, resolveChildren n slots = .error e := by
  intro slots
  induction slots with
  | nil => intro h; exact absurd h (List.not_mem_nil v)
  | cons w ws ih =>
    intro hmem hbig
    rcases List.mem_cons.mp hmem with hw | hw
    · subst hw
      refine ⟨"IndexError", ?_⟩
      unfold resolveChildren
      rw [if_pos (by omega), pyIdx_none_of_big hbig]
    · unfold resolveChildren
      by_cases hpos : -1 < w
      · rw [if_pos hpos]
        cases hidx : pyIdx n (w - 1) with
        | none => exact ⟨"IndexError", rfl⟩
        | some j =>
          obtain ⟨e, he⟩ := ih hw hbig
          exact ⟨e, by rw [he]; rfl⟩
      · rw [if_neg hpos]
        exact ih hw hbig

theorem popStep_error_of_big {gid : List (List Int)} {n gi : Nat}
    {row : List Int} {v : Int} (hrow : gid.get? gi = some row)
    (hv : v ∈ row.drop 7) (hbig : (n : Int) < v) :
    ∀ s, ∃ e, popStep gid n s gi = .error e := by
  intro s
  obtain ⟨e, he⟩ := resolveChildren_error_of_big (row.drop 7) hv hbig
  refine ⟨e, ?_⟩
  simp only [popStep, hrow, he]

theorem populateLoop_error {gid : List (List Int)} {n gi : Nat} :
    ∀ order : List Nat, gi ∈ order →
      (∀ s, ∃ e, popStep gid n s gi = .error e) →
      ∀ s, ∃ e, populateLoop gid n order s = .error e := by
  intro order
  induction order with
  | nil => intro h; exact absurd h (List.not_mem_nil gi)
  | cons gj rest ih =>
    intro hmem herr s
    rcases List.mem_cons.mp hmem with hj | hj
    · subst hj
      obtain ⟨e, he⟩ := herr s
      exact ⟨e, by unfold populateLoop; rw [he]⟩
    · cases hstep : popStep gid n s gj with
      | error e => exact ⟨e, by unfold populateLoop; rw [hstep]⟩
      | ok s2 =>
        obtain ⟨e, he⟩ := ih hj herr s2
        exact ⟨e, by unfold populateLoop; rw [hstep]; exact he⟩

/-- C4 — an adjacency-table child slot holding an id strictly greater than
the grid count `n` (the only ids outside `[1, n]` that are not covered by the
spec's "`≤ 0` is an ignored sentinel" rule) makes `_populate_grid_objects`
raise, so no hierarchy is produced. -/
theorem c4_out_of_range_aborts (n : Nat) (levels : List Int)
    (gid : List (List Int)) (row : List Int) (v : Int)
    (hlev : levels.length = n) (hrow : row ∈ gid) (hgid : gid.length = n)
    (hv : v ∈ row.drop 7) (hbig : (n : Int) < v) :
    exceptIsOk (populate_grid_objects n levels gid) = false := by
  obtain ⟨gi, hlt, hget⟩ := List.getElem_of_mem hrow
  have hget? : gid.get? gi = some row := by
    rw [List.get?_eq_getElem?, List.getElem?_eq_getElem hlt, hget]
  have hmem : gi ∈ levelOrder levels :=
    mem_levelOrder.mpr (by rw [hlev]; exact hgid ▸ hlt)
  obtain ⟨e, he⟩ := populateLoop_error (levelOrder levels) hmem
    (popStep_error_of_big hget? hv hbig) initRelState
  unfold populate_grid_objects
  rw [he]
  rfl

/-- Concrete instance for C4: eight grids, one adjacency row referencing
child id 99. -/
def gidC4 : List (List Int) :=
  [[-1, -1, -1, -1, -1, -1, -1, 99],
   [-1, -1, -1, -1, -1, -1, -1, -1],
   [-1, -1, -1, -1, -1, -1, -1, -1],
   [-1, -1, -1, -1, -1, -1, -1, -1],
   [-1, -1, -1, -1, -1, -1, -1, -1],
   [-1, -1, -1, -1, -1, -1, -1, -1],
   [-1, -1, -1, -1, -1, -1, -1, -1],
   [-1, -1, -1, -1, -1, -1, -1, -1]]

/-- Witness for C4: child id 99 with N = 8 aborts the build. -/
theorem c4_out_of_range_aborts_witness :
    exceptIsOk (populate_grid_objects 8 (List.replicate 8 0) gidC4) = false :=
  c4_out_of_range_aborts 8 (List.replicate 8 0) gidC4
    [-1, -1, -1, -1, -1, -1, -1, 99] 99 (by decide) (by decide) (by decide)
    (by decide) (by decide)

end BuildOutcomes

section SentinelsAndOrphans

/-- Any slot value `v` with `-1 < v ≤ n` yields a valid `self.grids[v-1]`
reference (for `v = 0` this is Python's wrap-around to the last grid). -/
theorem pyIdx_some_of_inrange {n : Nat} {v : Int} (hn : 1 ≤ n)
    (hpos : -1 < v) (hle : v ≤ (n : Int)) : ∃ j, pyIdx n (v - 1) = some j := by
  unfold pyIdx
  by_cases h1 : 0 ≤ v - 1 ∧ v - 1 < (n : Int)
  · exact ⟨(v - 1).toNat, by rw [if_pos h1]⟩
  · refine ⟨(v - 1 + n).toNat, ?_⟩
    rw [if_neg h1, if_pos (by omega)]

theorem resolveChildren_ok_of_le {n : Nat} (hn : 1 ≤ n) :
    ∀ slots : List Int, (∀ v ∈ slots, v ≤ (n : Int)) →
      ∃ cs, resolveChildren n slots = .ok cs := by
  intro slots
  induction slots with
  | nil => exact fun _ => ⟨[], rfl⟩
  | cons w ws ih =>
    intro hall
    obtain ⟨cs, hcs⟩ := ih fun v hv => hall v (List.mem_cons_of_mem w hv)
    unfold resolveChildren
    by_cases hpos : -1 < w
    · obtain ⟨j, hj⟩ := pyIdx_some_of_inrange hn hpos (hall w (List.mem_cons_self w ws))
      rw [if_pos hpos, hj, hcs]
      exact ⟨j :: cs, rfl⟩
    · rw [if_neg hpos]
      exact ⟨cs, hcs⟩

theorem popStep_ok {gid : List (List Int)} {n gi : Nat} (hn : 1 ≤ n)
    (hlt : gi < gid.length)
    (hall : ∀ row ∈ gid, ∀ v ∈ row.drop 7, v ≤ (n : Int)) :
    ∀ s, ∃ s', popStep gid n s gi = .ok s' := by
  intro s
  obtain ⟨row, hrow⟩ : ∃ row, gid.get? gi = some row := by
    rw [List.get?_eq_getElem?, List.getElem?_eq_getElem hlt]
    exact ⟨gid[gi], rfl⟩
  obtain ⟨cs, hcs⟩ := resolveChildren_ok_of_le hn (row.drop 7)
    (fun v hv => hall row (List.get?_mem hrow) v hv)
  refine ⟨{ s with
      children := fun g => if g = gi then cs else s.children g,
      parent := fun g => if g ∈ cs then some gi else s.parent g }, ?_⟩
  simp only [popStep, hrow, hcs]

theorem populateLoop_ok {gid : List (List Int)} {n : Nat} (hn : 1 ≤ n)
    (hall : ∀ row ∈ gid, ∀ v ∈ row.drop 7, v ≤ (n : Int)) :
    ∀ order : List Nat, (∀ gi ∈ order, gi < gid.length) →
      ∀ s, ∃ s', populateLoop gid n order s = .ok s' := by
  intro order
  induction order with
  | nil => exact fun _ s => ⟨s, rfl⟩
  | cons gj rest ih =>
    intro hord s
    obtain ⟨s2, hs2⟩ := popStep_ok hn (hord gj (List.mem_cons_self gj rest)) hall s
    obtain ⟨s', hs'⟩ := ih (fun gi hgi => hord gi (List.mem_cons_of_mem gj hgi)) s2
    refine ⟨s', ?_⟩
    unfold populateLoop
    rw [hs2]
    exact hs'

theorem listMax_isSome {levels : List Int} (h : levels ≠ []) :
    ∃ m, listMax levels = some m := by
  cases levels with
  | nil => exact absurd rfl h
  | cons x xs => exact ⟨xs.foldl max x, rfl⟩

/-- If every child slot of every row stays `≤ n`, the whole relationship pass
completes without raising. -/
theorem populate_ok_of_inrange {n : Nat} {levels : List Int}
    {gid : List (List Int)} (hn : 1 ≤ n) (hlev : levels.length = n)
    (hgid : gid.length = n)
    (hall : ∀ row ∈ gid, ∀ v ∈ row.drop 7, v ≤ (n : Int)) :
    exceptIsOk (populate_grid_objects n levels gid) = true := by
  obtain ⟨s0, hs0⟩ := populateLoop_ok hn hall (levelOrder levels)
    (fun gi hgi => by rw [hgid, ← hlev]; exact mem_levelOrder.mp hgi) initRelState
  have hne : levels ≠ [] := by
    intro h
    rw [h] at hlev
    simp at hlev
    omega
  obtain ⟨m, hm⟩ := listMax_isSome hne
  unfold populate_grid_objects
  rw [hs0, hm]
  rfl

/-- Rows whose child slots are all `≤ -1` resolve to no children at all. -/
theorem resolveChildren_allneg {n : Nat} :
    ∀ slots : List Int, (∀ v ∈ slots, v ≤ -1) →
      resolveChildren n slots = .ok [] := by
  intro slots
  induction slots with
  | nil => exact fun _ => rfl
  | cons w ws ih =>
    intro hall
    unfold resolveChildren
    rw [if_neg (by have := hall w (List.mem_cons_self w ws); omega)]
    exact ih fun v hv => hall v (List.mem_cons_of_mem w hv)

theorem populateLoop_children_empty {gid : List (List Int)} {n gi : Nat}
    {row : List Int} (hrow : gid.get? gi = some row)
    (hneg : ∀ v ∈ row.drop 7, v ≤ -1) :
    ∀ (order : List Nat) (s s' : RelState),
      populateLoop gid n order s = .ok s' → s.children gi = [] →
      s'.children gi = [] := by
  intro order
  induction order with
  | nil =>
    intro s s' hloop hnil
    injection hloop with h
    subst h
    exact hnil
  | cons gj rest ih =>
    intro s s' hloop hnil
    simp only [populateLoop] at hloop
    split at hloop
    · simp at hloop
    · rename_i s2 hstep
      refine ih s2 s' hloop ?_
      unfold popStep at hstep
      split at hstep
      · simp at hstep
      · rename_i row' hrow'
        split at hstep
        · simp at hstep
        · rename_i cs hres
          injection hstep with hstep
          subst hstep
          simp only
          by_cases hgj : gi = gj
          · subst hgj
            rw [if_pos rfl]
            rw [hrow] at hrow'
            injection hrow' with hrow'
            subst hrow'
            rw [resolveChildren_allneg (row.drop 7) hneg] at hres
            injection hres with hres
            exact hres.symm
          · rw [if_neg hgj]
            exact hnil

/-- Where a resolved child reference can point: slot value `v ≥ 0` reaches
grid index `j` iff `v = j + 1` (the documented 1-based encoding) or `v = 0`
and `j` is the last grid (Python wrap-around). -/
theorem pyIdx_shift {n : Nat} {v : Int} {j : Nat} (hpos : -1 < v)
    (h : pyIdx n (v - 1) = some j) :
    v = (j : Int) + 1 ∨ (v = 0 ∧ j + 1 = n) := by
  unfold pyIdx at h
  split at h
  · rename_i hc
    injection h with h
    left
    omega
  · split at h
    · rename_i hc hc'
      injection h with h
      right
      omega
    · exact absurd h (by simp)

theorem resolveChildren_not_mem {n g : Nat} :
    ∀ {slots : List Int} {cs : List Nat},
      resolveChildren n slots = .ok cs →
      (∀ v ∈ slots, v ≠ (g : Int) + 1 ∧ (v = 0 → g + 1 ≠ n)) →
      g ∉ cs := by
  intro slots
  induction slots with
  | nil =>
    intro cs hres hg
    injection hres with hres
    subst hres
    exact List.not_mem_nil g
  | cons w ws ih =>
    intro cs hres hg
    unfold resolveChildren at hres
    by_cases hpos : -1 < w
    · rw [if_pos hpos] at hres
      cases hidx : pyIdx n (w - 1) with
      | none => rw [hidx] at hres; simp at hres
      | some j =>
        rw [hidx] at hres
        cases hres' : resolveChildren n ws with
        | error e => rw [hres'] at hres; simp [Except.map] at hres
        | ok cs' =>
          rw [hres'] at hres
          simp only [Except.map] at hres
          injection hres with hres
          subst hres
          intro hmem
          rcases List.mem_cons.mp hmem with hgj | hgj
          · subst hgj
            obtain ⟨hne, hzero⟩ := hg w (List.mem_cons_self w ws)
            rcases pyIdx_shift hpos hidx with hcase | hcase
            · exact hne hcase
            · exact hzero hcase.1 hcase.2
          · exact ih hres' (fun v hv => hg v (List.mem_cons_of_mem w hv)) hgj
    · rw [if_neg hpos] at hres
      exact ih hres (fun v hv => hg v (List.mem_cons_of_mem w hv))

theorem populateLoop_parent_none {gid : List (List Int)} {n g : Nat}
    (hg : ∀ row ∈ gid, ∀ v ∈ row.drop 7, v ≠ (g : Int) + 1 ∧ (v = 0 → g + 1 ≠ n)) :
    ∀ (order : List Nat) (s s' : RelState),
      populateLoop gid n order s = .ok s' → s.parent g = none →
      s'.parent g = none := by
  intro order
  induction order with
  | nil =>
    intro s s' hloop hnone
    injection hloop with h
    subst h
    exact hnone
  | cons gj rest ih =>
    intro s s' hloop hnone
    simp only [populateLoop] at hloop
    split at hloop
    · simp at hloop
    · rename_i s2 hstep
      refine ih s2 s' hloop ?_
      unfold popStep at hstep
      split at hstep
      · simp at hstep
      · rename_i row hrow
        split at hstep
        · simp at hstep
        · rename_i cs hres
          injection hstep with hstep
          subst hstep
          simp only
          rw [if_neg (resolveChildren_not_mem hres
            (fun v hv => hg row (List.get?_mem hrow) v hv))]
          exact hnone

end SentinelsAndOrphans

section ClaimWitnesses

/-- Adjacency table for the C1 witness: root grid id 1 with children ids 2
and 3, grids 2 and 3 childless. -/
def gidC1 : List (List Int) :=
  [[-1, -1, -1, -1, -1, -1, -1, 2, 3],
   [-1, -1, -1, -1, -1, -1, -1, -1, -1],
   [-1, -1, -1, -1, -1, -1, -1, -1, -1]]

/-- Witness for C1: in the built 3-grid hierarchy, grid index 1 ends with
parent index 0 and is indeed among index 0's children. -/
theorem c1_parent_in_children_witness :
    (getOkState (populate_grid_objects 3 [0, 1, 1] gidC1)).parent 1 = some 0 ∧
      1 ∈ (getOkState (populate_grid_objects 3 [0, 1, 1] gidC1)).children 0 :=
  ⟨by decide, c1_parent_in_children 3 [0, 1, 1] gidC1
      (getOkState (populate_grid_objects 3 [0, 1, 1] gidC1)) rfl 1 0 (by decide)⟩

/-- Adjacency table refuting the "`≤ 0` is ignored" reading: row 0's child
slots are all `≤ 0` (a single `0` slot), rows 1‑2 are all `-1`. -/
def gidC3 : List (List Int) :=
  [[-1, -1, -1, -1, -1, -1, -1, 0],
   [-1, -1, -1, -1, -1, -1, -1, -1],
   [-1, -1, -1, -1, -1, -1, -1, -1]]

/-- Counterexample to C3 as stated: every child slot of row 0 is `≤ 0`, yet
the build succeeds with grid 0's `Children = [grid index 2]` — the slot value
`0` is *not* ignored; `self.grids[0 - 1]` wraps around to the last grid. -/
theorem c3_zero_slot_counterexample :
    ((gidC3.getD 0 []).drop 7).all (fun v => decide (v ≤ 0)) = true ∧
      (populate_grid_objects 3 [0, 0, 0] gidC3).toOption.map
        (fun s => s.children 0) = some [2] :=
  ⟨by decide, by decide⟩

/-- C3 (amended) — only slot values `≤ -1` are ignored (the code keeps any
slot `> -1`, so `0` wraps to the last grid): a row whose child slots are all
`-1` (or any value `≤ -1`) leaves its grid with empty `Children`, and a table
whose child slots are all `≤ -1` builds without error. -/
theorem c3_negative_slots_ignored (n : Nat) (levels : List Int)
    (gid : List (List Int)) (hlev : levels.length = n) (hgid : gid.length = n) :
    (∀ s, populate_grid_objects n levels gid = .ok s →
       ∀ gi row, gid.get? gi = some row → (∀ v ∈ row.drop 7, v ≤ -1) →
         s.children gi = []) ∧
    (1 ≤ n → (∀ row ∈ gid, ∀ v ∈ row.drop 7, v ≤ -1) →
       exceptIsOk (populate_grid_objects n levels gid) = true) := by
  constructor
  · intro s hok gi row hrow hneg
    obtain ⟨s0, _, _, hch, _⟩ := populate_ok_elim hok
    rw [hch]
    exact populateLoop_children_empty hrow hneg (levelOrder levels)
      initRelState s0 (by assumption) rfl
  · intro hn hneg
    refine populate_ok_of_inrange hn hlev hgid ?_
    intro row hrow v hv
    have := hneg row hrow v hv
    omega

/-- A 2-grid adjacency table whose child slots are all the `-1` sentinel. -/
def gidAllNeg : List (List Int) :=
  [[-1, -1, -1, -1, -1, -1, -1, -1],
   [-1, -1, -1, -1, -1, -1, -1, -1]]

/-- Witness for the amended C3: the all-sentinel table builds without error
and leaves grid 0 with empty `Children`. -/
theorem c3_negative_slots_ignored_witness :
    (getOkState (populate_grid_objects 2 [0, 0] gidAllNeg)).children 0 = [] ∧
      exceptIsOk (populate_grid_objects 2 [0, 0] gidAllNeg) = true := by
  have h := c3_negative_slots_ignored 2 [0, 0] gidAllNeg (by decide) (by decide)
  exact ⟨h.1 (getOkState (populate_grid_objects 2 [0, 0] gidAllNeg)) rfl 0
      [-1, -1, -1, -1, -1, -1, -1, -1] (by decide) (by decide),
    h.2 (by decide) (by decide)⟩

/-- Adjacency table refuting C10 as stated: grid id 2 appears in no child
slot, but row 0 carries a `0` slot. -/
def gidC10 : List (List Int) :=
  [[-1, -1, -1, -1, -1, -1, -1, 0],
   [-1, -1, -1, -1, -1, -1, -1, -1]]

/-- Counterexample to C10 as stated: the id `2` of the last grid (index 1)
appears in no adjacency child slot, yet after a successful build its
`Parent` is grid index 0 — the `0` slot in row 0 wrapped around to it. -/
theorem c10_orphan_counterexample :
    gidC10.all (fun row => (row.drop 7).all (fun v => decide (v ≠ 2))) = true ∧
      (populate_grid_objects 2 [0, 1] gidC10).toOption.map
        (fun s => s.parent 1) = some (some 0) :=
  ⟨by decide, by decide⟩

/-- C10 (amended) — grids start with `Parent = None`, `Children = []`; the
relationship pass assigns a `Parent` only to grids targeted by some slot
value `v > -1` under the indexing rule `v = id` (1-based) or `v = 0` hitting
the last grid; so a grid `g` with `g + 1` in no child slot, and which is not
the last grid while some slot holds `0`, ends with `Parent = None` — whatever
its level — and an in-range table builds without error. -/
theorem c10_orphans_keep_no_parent (n : Nat) (levels : List Int)
    (gid : List (List Int)) (hn : 1 ≤ n) (hlev : levels.length = n)
    (hgid : gid.length = n)
    (hrange : ∀ row ∈ gid, ∀ v ∈ row.drop 7, v ≤ (n : Int)) :
    (∀ g, initRelState.parent g = none ∧ initRelState.children g = []) ∧
    exceptIsOk (populate_grid_objects n levels gid) = true ∧
    (∀ (g : Nat) (s : RelState), populate_grid_objects n levels gid = .ok s →
       (∀ v' ∈ gid, ∀ v ∈ v'.drop 7, v ≠ (g : Int) + 1 ∧ (v = 0 → g + 1 ≠ n)) →
       s.parent g = none) := by
  refine ⟨fun g => ⟨rfl, rfl⟩, populate_ok_of_inrange hn hlev hgid hrange, ?_⟩
  intro g s hok hg
  obtain ⟨s0, hloop, hpar, _, _⟩ := populate_ok_elim hok
  rw [hpar]
  exact populateLoop_parent_none hg (levelOrder levels) initRelState s0 hloop rfl

/-- Witness for the amended C10: a grid at level 1 (above level 0) whose id
appears in no child slot ends the successful build with `Parent = None`. -/
theorem c10_orphans_keep_no_parent_witness :
    exceptIsOk (populate_grid_objects 2 [0, 1] gidAllNeg) = true ∧
      (getOkState (populate_grid_objects 2 [0, 1] gidAllNeg)).parent 1 = none := by
  have h := c10_orphans_keep_no_parent 2 [0, 1] gidAllNeg (by decide) (by decide)
    (by decide) (by decide)
  exact ⟨h.2.1, h.2.2 1 (getOkState (populate_grid_objects 2 [0, 1] gidAllNeg))
    rfl (by decide)⟩

end ClaimWitnesses

section ParameterStore

/-- A 3-vector of file values. -/
abbrev Vec3 := ℚ × ℚ × ℚ

/-- `nn = "/%s %s" % (ptype, {False: "runtime parameters", True: "scalars"}[scalar])`
(lines 218‑219). -/
def tableName (ptype : String) (scalar : Bool) : String :=
  "/" ++ ptype ++ " " ++ (if scalar then "scalars" else "runtime parameters")

/-- Drop leading whitespace characters. -/
def dropWhileWs : List Char → List Char
  | [] => []
  | c :: cs => if c.isWhitespace then dropWhileWs cs else c :: cs

/-- Python's `str.strip()`: remove leading and trailing whitespace (the
HDF5 parameter names are padded with ASCII spaces; Python additionally
strips some rarer Unicode whitespace, which never occurs in these names). -/
def pyStrip (s : String) : String :=
  String.mk (List.reverse (dropWhileWs (List.reverse (dropWhileWs s.data))))

/-- The scan loop of `_find_parameter` (lines 220‑223): return the value of
the first row whose stripped name equals `pname` exactly, else
`KeyError(pname)`. -/
def findInRows (rows : List (String × ℚ)) (pname : String) : Except String ℚ :=
  match rows with
  | [] => .error pname
  | (tpname, pval) :: rest =>
    if pyStrip tpname = pname then .ok pval else findInRows rest pname

/-- `_find_parameter(ptype, pname, scalar, handle)` (lines 213‑223); the open
handle's parameter tables are passed as the map `tables` from table name to
rows. -/
def find_parameter (tables : String → List (String × ℚ))
    (ptype pname : String) (scalar : Bool) : Except String ℚ :=
  findInRows (tables (tableName ptype scalar)) pname

/-- C7 — `_find_parameter` scans the rows of the table selected by
`(ptype, scalar)` in order and returns the value of the first row whose
whitespace-trimmed name equals the requested name exactly; if no row matches
it fails with `KeyError` and returns no value.  Stated via `List.find?`. -/
theorem c7_find_parameter_first_match (tables : String → List (String × ℚ))
    (ptype pname : String) (scalar : Bool)
    (hty : ptype = "integer" ∨ ptype = "real") :
    find_parameter tables ptype pname scalar =
      match (tables (tableName ptype scalar)).find?
          (fun r => pyStrip r.1 == pname) with
      | some r => .ok r.2
      | none => .error pname := by
  unfold find_parameter
  generalize tables (tableName ptype scalar) = rows
  induction rows with
  | nil => rfl
  | cons r rest ih =>
    obtain ⟨tpname, pval⟩ := r
    unfold findInRows
    by_cases h : pyStrip tpname = pname
    · rw [if_pos h, List.find?_cons_of_pos _ (by simpa using h)]
    · rw [if_neg h, List.find?_cons_of_neg _ (by simpa using h)]
      exact ih

/-- Concrete tables for the C7 witness: the scalars table holds a padded
`" nxb "` row before a second `"nxb"` row. -/
def tablesC7 : String → List (String × ℚ) :=
  fun k => if k = "/integer scalars" then [(" nxb ", 8), ("nxb", 9)] else []

/-- Witness for C7: the first (padded) matching row wins, value 8. -/
theorem c7_find_parameter_first_match_witness :
    (find_parameter tablesC7 "integer" "nxb" true =
      match (tablesC7 (tableName "integer" true)).find?
          (fun r => pyStrip r.1 == "nxb") with
      | some r => .ok r.2
      | none => .error "nxb") ∧
    find_parameter tablesC7 "integer" "nxb" true = .ok 8 :=
  ⟨c7_find_parameter_first_match tablesC7 "integer" "nxb" true (Or.inl rfl),
   by rfl⟩

end ParameterStore

section HierarchyParsing

/-- The `/simulation parameters` summary table: `[0][0]` is its
fixed-position first entry, `named` its by-field access. -/
structure SimParamsTable where
  entry00 : ℚ
  named : String → Option ℚ

/-- The open checkpoint container handle (`self._handle`): parameter tables
by name, the optional `/simulation parameters` summary table, and the
per-grid arrays `/bounding box` (per grid: lows, highs), `/refine level`,
`/localnp` and `/gid`. -/
structure Handle where
  tables : String → List (String × ℚ)
  simParams : Option SimParamsTable
  boundingBox : List (Vec3 × Vec3)
  refineLevel : List Int
  localnp : List Int
  gid : List (List Int)

/-- `_count_grids` (lines 95‑100): try the `"globalnumblocks"` integer
scalar; on `KeyError` fall back to `self._handle["/simulation parameters"][0][0]`
(whose own absence is an uncaught `KeyError`). -/
def count_grids (h : Handle) : Except String ℚ :=
  match find_parameter h.tables "integer" "globalnumblocks" true with
  | .ok v => .ok v
  | .error _ =>
    match h.simParams with
    | some t => .ok t.entry00
    | none => .error "simulation parameters"

/-- `f["/simulation parameters"][name]`: `KeyError(name)` when absent. -/
def getSimNamed (t : SimParamsTable) (k : String) : Except String ℚ :=
  match t.named k with
  | some v => .ok v
  | none => .error k

/-- Lines 109‑115 of `_parse_hierarchy`: try the `nxb`/`nyb`/`nzb` integer
scalars; on any `KeyError` fall back to the summary table's named entries
(whose own absence is an uncaught `KeyError`). -/
def blockSizes (h : Handle) : Except String (ℚ × ℚ × ℚ) :=
  match find_parameter h.tables "integer" "nxb" true,
        find_parameter h.tables "integer" "nyb" true,
        find_parameter h.tables "integer" "nzb" true with
  | .ok x, .ok y, .ok z => .ok (x, y, z)
  | _, _, _ =>
    match h.simParams with
    | none => .error "simulation parameters"
    | some t =>
      match getSimNamed t "nxb", getSimNamed t "nyb", getSimNamed t "nzb" with
      | .ok x, .ok y, .ok z => .ok (x, y, z)
      | .error e, _, _ => .error e
      | _, .error e, _ => .error e
      | _, _, .error e => .error e

/-- `na.add.accumulate` over the particle counts with running total `acc`. -/
def accumulateCounts : List Int → Int → List Int
  | [], _ => []
  | c :: cs, acc => (acc + c) :: accumulateCounts cs (acc + c)

/-- Lines 118‑119: `self._particle_indices = na.zeros(self.num_grids + 1)`,
then `na.add.accumulate(self.grid_particle_count, out=self._particle_indices[1:])`:
a leading 0 followed by the running sums of the counts. -/
def particle_indices (localnp : List Int) : List Int :=
  0 :: accumulateCounts localnp 0

/-- The outputs `_parse_hierarchy` stores on the hierarchy object. -/
structure ParseResult where
  gridLeftEdge : List Vec3
  gridRightEdge : List Vec3
  gridDimensions : List (ℚ × ℚ × ℚ)
  particleIndices : List Int
  gridLevels : List Int
  grids : List FLASHGrid

/-- `_parse_hierarchy` (lines 102‑126): split the bounding box into edges,
obtain the block sizes (with summary-table fallback), scale the
unit-dimension baseline by them, prefix-sum the particle counts, subtract 1
from the 1-based file refine levels, and create grid `i+1` at stored level
`grid_levels[i]`.  `numGrids` is `self.num_grids`. -/
def parse_hierarchy (h : Handle) (numGrids : Nat) : Except String ParseResult :=
  match blockSizes h with
  | .error e => .error e
  | .ok bs =>
    let levels := h.refineLevel.map (fun l => l - 1)
    .ok { gridLeftEdge := h.boundingBox.map Prod.fst,
          gridRightEdge := h.boundingBox.map Prod.snd,
          gridDimensions := List.replicate numGrids bs,
          particleIndices := particle_indices h.localnp,
          gridLevels := levels,
          grids := (List.range numGrids).map
            (fun i => { id := i + 1, level := levels.getD i 0 }) }

/-- Destructure a successful `_parse_hierarchy` run into its stored outputs. -/
theorem parse_ok_elim {h : Handle} {numGrids : Nat} {r : ParseResult}
    (hok : parse_hierarchy h numGrids = .ok r) :
    (∃ bs, blockSizes h = .ok bs ∧ r.gridDimensions = List.replicate numGrids bs) ∧
    r.particleIndices = particle_indices h.localnp ∧
    r.gridLevels = h.refineLevel.map (fun l => l - 1) ∧
    r.grids = (List.range numGrids).map
      (fun i => { id := i + 1,
                  level := (h.refineLevel.map (fun l => l - 1)).getD i 0 }) := by
  unfold parse_hierarchy at hok
  split at hok
  · simp at hok
  · rename_i bs hbs
    injection hok with hok
    subst hok
    exact ⟨⟨bs, hbs, rfl⟩, rfl, rfl, rfl⟩

end HierarchyParsing

section ParticleOffsets

theorem accumulateCounts_length :
    ∀ (cs : List Int) (a : Int), (accumulateCounts cs a).length = cs.length := by
  intro cs
  induction cs with
  | nil => intro a; rfl
  | cons c cs ih => intro a; simp [accumulateCounts, ih]

theorem accumulateCounts_getD :
    ∀ (cs : List Int) (a : Int) (i : Nat), i < cs.length →
      (accumulateCounts cs a).getD i 0 = a + (cs.take (i + 1)).sum := by
  intro cs
  induction cs with
  | nil => intro a i hi; simp at hi
  | cons c cs ih =>
    intro a i hi
    cases i with
    | zero => simp [accumulateCounts]
    | succ i =>
      have hi' : i < cs.length := by simpa using hi
      calc (accumulateCounts (c :: cs) a).getD (i + 1) 0
          = (accumulateCounts cs (a + c)).getD i 0 := rfl
        _ = (a + c) + (cs.take (i + 1)).sum := ih (a + c) i hi'
        _ = a + ((c :: cs).take (i + 2)).sum := by
            simp [List.take_succ_cons]
            ring

theorem particle_indices_length (cs : List Int) :
    (particle_indices cs).length = cs.length + 1 := by
  simp [particle_indices, accumulateCounts_length]

theorem particle_indices_getD (cs : List Int) :
    ∀ i : Nat, i ≤ cs.length →
      (particle_indices cs).getD i 0 = (cs.take i).sum := by
  intro i hi
  cases i with
  | zero => rfl
  | succ i =>
    have hi' : i < cs.length := by omega
    calc (particle_indices cs).getD (i + 1) 0
        = (accumulateCounts cs 0).getD i 0 := rfl
      _ = 0 + (cs.take (i + 1)).sum := accumulateCounts_getD cs 0 i hi'
      _ = (cs.take (i + 1)).sum := by ring

theorem getD_mem_of_lt :
    ∀ (l : List Int) (i : Nat), i < l.length → l.getD i 0 ∈ l := by
  intro l
  induction l with
  | nil => intro i hi; simp at hi
  | cons x xs ih =>
    intro i hi
    cases i with
    | zero => exact List.mem_cons_self x xs
    | succ i =>
      exact List.mem_cons_of_mem x (ih i (by simpa using hi))

theorem sum_take_succ_getD (cs : List Int) :
    ∀ i : Nat, i < cs.length →
      (cs.take (i + 1)).sum = (cs.take i).sum + cs.getD i 0 := by
  induction cs with
  | nil => intro i hi; simp at hi
  | cons c cs ih =>
    intro i hi
    cases i with
    | zero => simp
    | succ i =>
      have hi' : i < cs.length := by simpa using hi
      simp only [List.take_succ_cons, List.sum_cons, ih i hi']
      simp [List.getD]
      ring

theorem sum_take_mono (cs : List Int) (hpos : ∀ c ∈ cs, 0 ≤ c) :
    ∀ (i d : Nat), i + d ≤ cs.length →
      (cs.take i).sum ≤ (cs.take (i + d)).sum := by
  intro i d
  induction d with
  | zero => intro _; exact le_refl _
  | succ d ih =>
    intro hle
    have h1 : i + d < cs.length := by omega
    calc (cs.take i).sum ≤ (cs.take (i + d)).sum := ih (by omega)
      _ ≤ (cs.take (i + d)).sum + cs.getD (i + d) 0 := by
          have := hpos (cs.getD (i + d) 0) (getD_mem_of_lt cs (i + d) h1)
          omega
      _ = (cs.take (i + d + 1)).sum := (sum_take_succ_getD cs (i + d) h1).symm

/-- C2 — `_parse_hierarchy` computes a particle-offset table of length
`N + 1` with `offset[0] = 0` and `offset[i+1] = offset[i] + count[i]`; the
offsets are monotonically non-decreasing for non-negative counts,
`offset[N]` is the total particle count, and counts `[0,5,3,0]` give
offsets `[0,0,5,8,8]`. -/
theorem c2_particle_offset_table (h : Handle) (numGrids : Nat)
    (r : ParseResult) (hok : parse_hierarchy h numGrids = .ok r)
    (hlen : h.localnp.length = numGrids)
    (hpos : ∀ c ∈ h.localnp, 0 ≤ c) :
    r.particleIndices.length = numGrids + 1 ∧
    r.particleIndices.getD 0 0 = 0 ∧
    (∀ i, i < numGrids → r.particleIndices.getD (i + 1) 0 =
        r.particleIndices.getD i 0 + h.localnp.getD i 0) ∧
    (∀ i j, i ≤ j → j ≤ numGrids →
        r.particleIndices.getD i 0 ≤ r.particleIndices.getD j 0) ∧
    r.particleIndices.getD numGrids 0 = h.localnp.sum ∧
    particle_indices [0, 5, 3, 0] = [0, 0, 5, 8, 8] := by
  obtain ⟨-, hpi, -, -⟩ := parse_ok_elim hok
  rw [hpi]
  subst hlen
  refine ⟨particle_indices_length h.localnp, rfl, ?_, ?_, ?_, by decide⟩
  · intro i hi
    rw [particle_indices_getD h.localnp (i + 1) (by omega),
      particle_indices_getD h.localnp i (by omega)]
    exact sum_take_succ_getD h.localnp i hi
  · intro i j hij hj
    rw [particle_indices_getD h.localnp i (by omega),
      particle_indices_getD h.localnp j hj]
    have := sum_take_mono h.localnp hpos i (j - i) (by omega)
    have hiji : i + (j - i) = j := by omega
    rwa [hiji] at this
  · rw [particle_indices_getD h.localnp h.localnp.length (le_refl _)]
    rw [List.take_length]

end ParticleOffsets

section LevelsAndMax

theorem map_sub_one_getD :
    ∀ (l : List Int) (i : Nat), i < l.length →
      (l.map (fun x => x - 1)).getD i 0 = l.getD i 0 - 1 := by
  intro l
  induction l with
  | nil => intro i hi; simp at hi
  | cons x xs ih =>
    intro i hi
    cases i with
    | zero => rfl
    | succ i => exact ih i (by simpa using hi)

theorem foldl_max_le_init (xs : List Int) : ∀ a : Int, a ≤ xs.foldl max a := by
  induction xs with
  | nil => intro a; exact le_refl a
  | cons x xs ih =>
    intro a
    exact le_trans (le_max_left a x) (ih (max a x))

theorem foldl_max_mem (xs : List Int) :
    ∀ a : Int, xs.foldl max a = a ∨ xs.foldl max a ∈ xs := by
  induction xs with
  | nil => intro a; exact Or.inl rfl
  | cons x xs ih =>
    intro a
    rcases ih (max a x) with h | h
    · rcases max_choice a x with hc | hc
      · rw [List.foldl_cons, h, hc]
        exact Or.inl rfl
      · rw [List.foldl_cons, h, hc]
        exact Or.inr (List.mem_cons_self x xs)
    · exact Or.inr (List.mem_cons_of_mem x (by rw [List.foldl_cons]; exact h))

theorem le_foldl_max (xs : List Int) :
    ∀ (a x : Int), x ∈ xs → x ≤ xs.foldl max a := by
  induction xs with
  | nil => intro a x hx; exact absurd hx (List.not_mem_nil x)
  | cons w ws ih =>
    intro a x hx
    rcases List.mem_cons.mp hx with hw | hw
    · subst hw
      exact le_trans (le_max_right a x) (foldl_max_le_init ws (max a x))
    · exact ih (max a w) x hw

theorem listMax_mem {l : List Int} {m : Int} (h : listMax l = some m) : m ∈ l := by
  cases l with
  | nil => simp [listMax] at h
  | cons x xs =>
    injection h with h
    subst h
    rcases foldl_max_mem xs x with h | h
    · rw [h]; exact List.mem_cons_self x xs
    · exact List.mem_cons_of_mem x h

theorem listMax_is_ub {l : List Int} {m : Int} (h : listMax l = some m) :
    ∀ x ∈ l, x ≤ m := by
  cases l with
  | nil => simp [listMax] at h
  | cons w ws =>
    injection h with h
    subst h
    intro x hx
    rcases List.mem_cons.mp hx with hw | hw
    · subst hw; exact foldl_max_le_init ws x
    · exact le_foldl_max ws w x hw

/-- C6 — the stored `grid_levels` are the file's refine levels minus 1, each
grid object is created at its stored level, every stored level is ≥ 0 when
the file encodes levels 1-based, and after `_populate_grid_objects` the
hierarchy's `max_level` is the maximum stored level over all grids. -/
theorem c6_levels_and_max (h : Handle) (numGrids : Nat) (r : ParseResult)
    (hok : parse_hierarchy h numGrids = .ok r)
    (hlen : h.refineLevel.length = numGrids) :
    r.gridLevels = h.refineLevel.map (fun l => l - 1) ∧
    (∀ i g, i < numGrids → r.grids.get? i = some g →
        g.level = h.refineLevel.getD i 0 - 1) ∧
    ((∀ l ∈ h.refineLevel, 1 ≤ l) → ∀ g ∈ r.grids, 0 ≤ g.level) ∧
    (∀ s, populate_grid_objects numGrids r.gridLevels h.gid = .ok s →
        s.maxLevel ∈ r.gridLevels ∧ ∀ l ∈ r.gridLevels, l ≤ s.maxLevel) := by
  obtain ⟨-, -, hlev, hgr⟩ := parse_ok_elim hok
  refine ⟨hlev, ?_, ?_, ?_⟩
  · intro i g hi hg
    rw [hgr, List.get?_map, List.get?_range hi, Option.map_some'] at hg
    injection hg with hg
    subst hg
    exact map_sub_one_getD h.refineLevel i (by omega)
  · intro hall g hg
    rw [hgr] at hg
    obtain ⟨i, hi, hfi⟩ := List.mem_map.mp hg
    have hilt : i < numGrids := List.mem_range.mp hi
    subst hfi
    simp only
    rw [map_sub_one_getD h.refineLevel i (by omega)]
    have := hall (h.refineLevel.getD i 0) (getD_mem_of_lt h.refineLevel i (by omega))
    omega
  · intro s hs
    obtain ⟨-, -, -, -, hmax⟩ := populate_ok_elim hs
    exact ⟨listMax_mem hmax, fun l hl => listMax_is_ub hmax l hl⟩

end LevelsAndMax

section ParseWitnesses

/-- Extract a successful parse result (junk on error); used only to state
concrete witnesses. -/
def getOkParse : Except String ParseResult → ParseResult
  | .ok r => r
  | .error _ =>
    { gridLeftEdge := [], gridRightEdge := [], gridDimensions := [],
      particleIndices := [], gridLevels := [], grids := [] }

/-- Parameter tables holding the block sizes and the grid count. -/
def tablesW : String → List (String × ℚ) :=
  fun _ => [("globalnumblocks", 4), ("nxb", 8), ("nyb", 8), ("nzb", 8)]

/-- Four-grid handle with particle counts `[0, 5, 3, 0]`. -/
def handleC2 : Handle :=
  { tables := tablesW, simParams := none, boundingBox := [],
    refineLevel := [1, 1, 1, 1], localnp := [0, 5, 3, 0],
    gid := [[-1, -1, -1, -1, -1, -1, -1, -1],
            [-1, -1, -1, -1, -1, -1, -1, -1],
            [-1, -1, -1, -1, -1, -1, -1, -1],
            [-1, -1, -1, -1, -1, -1, -1, -1]] }

/-- Witness for C2: the parsed offset table of `[0,5,3,0]` ends at the total
count 8 and is exactly `[0,0,5,8,8]`. -/
theorem c2_particle_offset_table_witness :
    (getOkParse (parse_hierarchy handleC2 4)).particleIndices.getD 4 0 =
        handleC2.localnp.sum ∧
      particle_indices [0, 5, 3, 0] = [0, 0, 5, 8, 8] := by
  have hc := c2_particle_offset_table handleC2 4
    (getOkParse (parse_hierarchy handleC2 4)) rfl (by decide) (by decide)
  exact ⟨hc.2.2.2.2.1, hc.2.2.2.2.2⟩

/-- Three-grid handle with 1-based file levels `[1, 2, 2]` and the root grid
adjacency of `gidC1`. -/
def handleC6 : Handle :=
  { tables := tablesW, simParams := none, boundingBox := [],
    refineLevel := [1, 2, 2], localnp := [0, 0, 0], gid := gidC1 }

/-- Witness for C6: file levels `[1, 2, 2]` store as `[0, 1, 1]`, all grid
levels are ≥ 0, and `max_level` is one of the stored levels. -/
theorem c6_levels_and_max_witness :
    (getOkParse (parse_hierarchy handleC6 3)).gridLevels = [0, 1, 1] ∧
      (∀ g ∈ (getOkParse (parse_hierarchy handleC6 3)).grids, 0 ≤ g.level) ∧
      (getOkState (populate_grid_objects 3
          (getOkParse (parse_hierarchy handleC6 3)).gridLevels
          handleC6.gid)).maxLevel ∈
        (getOkParse (parse_hierarchy handleC6 3)).gridLevels := by
  have hc := c6_levels_and_max handleC6 3
    (getOkParse (parse_hierarchy handleC6 3)) rfl (by decide)
  refine ⟨hc.1.trans (by decide), hc.2.2.1 (by decide), (hc.2.2.2 _ rfl).1⟩

end ParseWitnesses

section LookupFallback

/-- C9 — `_count_grids` returns the `"globalnumblocks"` scalar when the
lookup succeeds and falls back to `"/simulation parameters"[0][0]` exactly
when it raises `KeyError`; likewise `_parse_hierarchy` takes `nxb`/`nyb`/`nzb`
from the scalars table and falls back to the summary table's named entries on
`KeyError`, so a file lacking the parameter-table entry but carrying the
summary-table values still parses. -/
theorem c9_lookup_fallback (h : Handle) (numGrids : Nat) :
    (∀ v, find_parameter h.tables "integer" "globalnumblocks" true = .ok v →
        count_grids h = .ok v) ∧
    (∀ e t, find_parameter h.tables "integer" "globalnumblocks" true = .error e →
        h.simParams = some t → count_grids h = .ok t.entry00) ∧
    (∀ x y z, find_parameter h.tables "integer" "nxb" true = .ok x →
        find_parameter h.tables "integer" "nyb" true = .ok y →
        find_parameter h.tables "integer" "nzb" true = .ok z →
        blockSizes h = .ok (x, y, z)) ∧
    (∀ e t x y z, find_parameter h.tables "integer" "nxb" true = .error e →
        h.simParams = some t → t.named "nxb" = some x → t.named "nyb" = some y →
        t.named "nzb" = some z →
        blockSizes h = .ok (x, y, z) ∧
          exceptIsOk (parse_hierarchy h numGrids) = true) := by
  refine ⟨?_, ?_, ?_, ?_⟩
  · intro v hv
    simp only [count_grids, hv]
  · intro e t he ht
    simp only [count_grids, he, ht]
  · intro x y z hx hy hz
    simp only [blockSizes, hx, hy, hz]
  · intro e t x y z hx ht hnx hny hnz
    have hb : blockSizes h = .ok (x, y, z) := by
      simp only [blockSizes, hx, ht, getSimNamed, hnx, hny, hnz]
    refine ⟨hb, ?_⟩
    simp only [parse_hierarchy, hb]
    rfl

/-- Summary table carrying `nxb = nyb = nzb = 4` and `[0][0] = 8`. -/
def simTableC9 : SimParamsTable :=
  { entry00 := 8,
    named := fun k =>
      if k = "nxb" then some 4
      else if k = "nyb" then some 4
      else if k = "nzb" then some 4
      else none }

/-- Handle whose parameter tables are empty: every `_find_parameter` lookup
raises `KeyError`, so everything must come from the summary table. -/
def handleC9 : Handle :=
  { tables := fun _ => [], simParams := some simTableC9, boundingBox := [],
    refineLevel := [1], localnp := [0],
    gid := [[-1, -1, -1, -1, -1, -1, -1, -1]] }

/-- Witness for C9: with an empty runtime/scalars table and a populated
summary table, `_count_grids` yields 8 and `_parse_hierarchy` succeeds with
block sizes `(4, 4, 4)`. -/
theorem c9_lookup_fallback_witness :
    count_grids handleC9 = .ok 8 ∧ blockSizes handleC9 = .ok (4, 4, 4) ∧
      exceptIsOk (parse_hierarchy handleC9 1) = true := by
  have hc := c9_lookup_fallback handleC9 1
  obtain ⟨hb, hp⟩ :=
    hc.2.2.2 "nxb" simTableC9 4 4 4 rfl rfl (by rfl) (by rfl) (by rfl)
  exact ⟨hc.2.1 "globalnumblocks" simTableC9 rfl rfl, hb, hp⟩

end LookupFallback

section UnitsDerivation

/-- Python dict assignment `m[k] = v` on a unit map. -/
def updMap (m : String → Option ℚ) (k : String) (v : ℚ) : String → Option ℚ :=
  fun s => if s = k then some v else m s

/-- `mpc_conversion["cm"]` for the given table (the real static table always
carries a `"cm"` entry; the theorems below take that as a hypothesis). -/
def mpcCm (mpc : List (String × ℚ)) : ℚ :=
  (mpc.lookup "cm").getD 1

/-- The `for unit in mpc_conversion.keys()` loop body with fixed divisor `c`:
`self.units[unit] = mpc_conversion[unit] / mpc_conversion["cm"]`. -/
def unitsLoop (c : ℚ) (l : List (String × ℚ)) (m : String → Option ℚ) :
    String → Option ℚ :=
  l.foldl (fun u p => updMap u p.1 (p.2 / c)) m

/-- `_setup_nounits_units` (lines 204‑211): populate every unit of the static
length-unit table `mpc_conversion` (external collaborator
`yt.utilities.definitions`, kept abstract as an association list with
distinct keys) with its factor divided by the table's `"cm"` entry.  The
`TimeUnits` branch touches only `conversion_factors`, not the unit maps, and
is not modelled. -/
def setup_nounits_units (mpc : List (String × ℚ))
    (units : String → Option ℚ) : String → Option ℚ :=
  unitsLoop (mpcCm mpc) mpc units

/-- `(self.domain_right_edge - self.domain_left_edge)` componentwise. -/
def vecSub (a b : Vec3) : Vec3 := (a.1 - b.1, a.2.1 - b.2.1, a.2.2 - b.2.2)

/-- `.max()` of a 3-vector. -/
def vecMax (v : Vec3) : ℚ := max v.1 (max v.2.1 v.2.2)

/-- `_set_units` (lines 186‑202): start from empty maps, run
`_setup_nounits_units`, then set `time_units['1'] = 1`, `units['1'] = 1.0`,
`units['unitary'] = 1.0 / (domain_right_edge - domain_left_edge).max()`, and
the `years`/`days` entries with `seconds = 1`.  Returns
`(units, time_units)`. -/
def set_units (domainLeft domainRight : Vec3) (mpc : List (String × ℚ)) :
    (String → Option ℚ) × (String → Option ℚ) :=
  let units0 : String → Option ℚ := fun _ => none
  let timeUnits0 : String → Option ℚ := fun _ => none
  let units1 := setup_nounits_units mpc units0
  let timeUnits1 := updMap timeUnits0 "1" 1
  let units2 := updMap units1 "1" 1
  let units3 := updMap units2 "unitary"
    (1 / vecMax (vecSub domainRight domainLeft))
  let timeUnits2 := updMap timeUnits1 "years" (1 / (365 * 3600 * 24))
  let timeUnits3 := updMap timeUnits2 "days" (1 / (3600 * 24))
  (units3, timeUnits3)

theorem unitsLoop_preserve (c : ℚ) (k : String) :
    ∀ (l : List (String × ℚ)) (m : String → Option ℚ),
      (∀ p ∈ l, p.1 ≠ k) → unitsLoop c l m k = m k := by
  intro l
  induction l with
  | nil => intro m _; rfl
  | cons p rest ih =>
    intro m hk
    have h1 : unitsLoop c (p :: rest) m = unitsLoop c rest (updMap m p.1 (p.2 / c)) := rfl
    rw [h1, ih _ (fun q hq => hk q (List.mem_cons_of_mem p hq))]
    unfold updMap
    rw [if_neg (fun h => hk p (List.mem_cons_self p rest) (Eq.symm h))]

theorem unitsLoop_mem (c : ℚ) :
    ∀ (l : List (String × ℚ)), (l.map Prod.fst).Nodup →
      ∀ (u : String) (v : ℚ), (u, v) ∈ l →
        ∀ m, unitsLoop c l m u = some (v / c) := by
  intro l
  induction l with
  | nil => intro _ u v huv; exact absurd huv (List.not_mem_nil (u, v))
  | cons p rest ih =>
    intro hnd u v huv m
    have h1 : unitsLoop c (p :: rest) m = unitsLoop c rest (updMap m p.1 (p.2 / c)) := rfl
    have hnd0 : (p.1 :: rest.map Prod.fst).Nodup := by
      rw [List.map_cons] at hnd
      exact hnd
    have hhead : p.1 ∉ rest.map Prod.fst := (List.nodup_cons.mp hnd0).1
    have htail : (rest.map Prod.fst).Nodup := (List.nodup_cons.mp hnd0).2
    rcases List.mem_cons.mp huv with hp | hp
    · have hu : p.1 = u := by rw [← hp]
      have hv : p.2 = v := by rw [← hp]
      rw [h1, unitsLoop_preserve c u rest _ ?keys]
      · unfold updMap
        rw [hu, hv, if_pos rfl]
      case keys =>
        intro q hq hqu
        apply hhead
        have hq1 : q.1 ∈ rest.map Prod.fst := List.mem_map_of_mem Prod.fst hq
        rwa [hqu, ← hu] at hq1
    · rw [h1]
      exact ih htail u v hp _

/-- C8 — after `_set_units`: `units["unitary"]` is the reciprocal of the
largest axis extent of the domain, `units["1"] = 1.0`, `time_units["1"] = 1`,
and every unit `u` of the static length-unit table (other than the
subsequently overwritten names `"1"` and `"unitary"`, which the real table
does not contain) gets `mpc_conversion[u] / mpc_conversion["cm"]`. -/
theorem c8_unit_derivation (dl dr : Vec3) (mpc : List (String × ℚ)) (cm : ℚ)
    (hcm : mpc.lookup "cm" = some cm) (hnd : (mpc.map Prod.fst).Nodup) :
    (set_units dl dr mpc).1 "unitary" =
        some (1 / vecMax (vecSub dr dl)) ∧
    (set_units dl dr mpc).1 "1" = some 1 ∧
    (set_units dl dr mpc).2 "1" = some 1 ∧
    (∀ u v, (u, v) ∈ mpc → u ≠ "1" → u ≠ "unitary" →
        (set_units dl dr mpc).1 u = some (v / cm)) := by
  refine ⟨rfl, rfl, rfl, ?_⟩
  intro u v huv h1 hu
  have h2 : (set_units dl dr mpc).1 u =
      updMap (updMap (setup_nounits_units mpc (fun _ => none)) "1" 1)
        "unitary" (1 / vecMax (vecSub dr dl)) u := rfl
  rw [h2]
  unfold updMap
  rw [if_neg hu, if_neg h1]
  have hc : mpcCm mpc = cm := by
    rw [mpcCm, hcm]
    rfl
  rw [← hc]
  exact unitsLoop_mem (mpcCm mpc) mpc hnd u v huv _

/-- A two-entry length-unit table for the C8 witness. -/
def mpcW : List (String × ℚ) := [("cm", 1), ("km", 100000)]

/-- Witness for C8 on the domain `[0,2] × [0,1] × [0,1]`. -/
theorem c8_unit_derivation_witness :
    (set_units (0, 0, 0) (2, 1, 1) mpcW).1 "unitary" =
        some (1 / vecMax (vecSub (2, 1, 1) (0, 0, 0))) ∧
      (set_units (0, 0, 0) (2, 1, 1) mpcW).1 "km" = some (100000 / 1) ∧
      (set_units (0, 0, 0) (2, 1, 1) mpcW).2 "1" = some 1 := by
  have hc := c8_unit_derivation (0, 0, 0) (2, 1, 1) mpcW 1 (by rfl) (by decide)
  exact ⟨hc.1, hc.2.2.2 "km" 100000 (by decide) (by decide) (by decide), hc.2.2.1⟩

end UnitsDerivation

section HandleLifecycle

/-- Modelled from the spec: the external base class `AMRHierarchy.__init__`
(§6, "Base hierarchy framework") drives the three hierarchy phases in order —
count grids, parse hierarchy, populate relationships (§2).  `numGrids` stands
for the grid count the driver obtains from `_count_grids` and uses to size
the shared arrays. -/
def buildPhases (h : Handle) (numGrids : Nat) :
    Except String (ParseResult × RelState) :=
  match count_grids h with
  | .error e => .error e
  | .ok _ =>
    match parse_hierarchy h numGrids with
    | .error e => .error e
    | .ok r =>
      match populate_grid_objects numGrids r.gridLevels h.gid with
      | .error e => .error e
      | .ok s => .ok (r, s)

/-- `FLASHHierarchy.__init__` (lines 65‑79): open the HDF5 handle (line 73),
run `AMRHierarchy.__init__` — the phase driver, here the parameter
`build` — (line 76), then close the handle (line 78).  There is no
try/finally, so when the driver raises, the close call on line 78 is never
reached.  The `Bool` component records whether the handle had been closed
when control left the constructor. -/
def flashHierarchyInit {α : Type} (h : Handle)
    (build : Handle → Except String α) : Except String α × Bool :=
  match build h with
  | .ok v => (.ok v, true)
  | .error e => (.error e, false)

/-- `_parse_parameter_file` (lines 225‑235): open the handle (line 228), look
up the six `<axis>min`/`<axis>max` real runtime parameters and the `"time"`
real scalar, then close the handle (line 235).  No try/finally: a `KeyError`
from any lookup propagates before the close call runs.  The `Bool` component
records whether the handle was closed. -/
def parse_parameter_file (tables : String → List (String × ℚ)) :
    Except String (Vec3 × Vec3 × ℚ) × Bool :=
  let r : Except String (Vec3 × Vec3 × ℚ) := do
    let xmin ← find_parameter tables "real" "xmin" false
    let ymin ← find_parameter tables "real" "ymin" false
    let zmin ← find_parameter tables "real" "zmin" false
    let xmax ← find_parameter tables "real" "xmax" false
    let ymax ← find_parameter tables "real" "ymax" false
    let zmax ← find_parameter tables "real" "zmax" false
    let time ← find_parameter tables "real" "time" true
    pure ((xmin, ymin, zmin), (xmax, ymax, zmax), time)
  match r with
  | .ok v => (.ok v, true)
  | .error e => (.error e, false)

/-- Eight-grid handle whose adjacency table references child id 99. -/
def handleC5 : Handle :=
  { tables := tablesW, simParams := none, boundingBox := [],
    refineLevel := List.replicate 8 1, localnp := List.replicate 8 0,
    gid := gidC4 }

/-- C5 — evaluation of the constructor and of `_parse_parameter_file` at
failing inputs: when `_populate_grid_objects` aborts on child id 99 (N = 8),
the constructor propagates the error with the handle still open (`false`),
and when the parameter tables lack `"xmin"`, `_parse_parameter_file`
propagates `KeyError` with the handle still open; only the success path
closes the handle.  This refutes the claim that the handle is closed on
every exit path: the code has no try/finally around lines 76‑78 / 229‑235. -/
theorem c5_handle_left_open_on_error :
    (flashHierarchyInit handleC5 (fun hh => buildPhases hh 8)).2 = false ∧
      exceptIsOk (flashHierarchyInit handleC5 (fun hh => buildPhases hh 8)).1
        = false ∧
      (parse_parameter_file (fun _ => [])).2 = false ∧
      exceptIsOk (parse_parameter_file (fun _ => [])).1 = false ∧
      (flashHierarchyInit handleC6 (fun hh => buildPhases hh 3)).2 = true := by
  exact ⟨by decide, by decide, by rfl, by rfl, by decide⟩

end HandleLifecycle
